import Mathlib

/-!
# Verification of the trip-logging form (`src/trip_form.py`)

Shallow embedding of the trip-entry application: the time normalizer
(`generate_time_options`, `format_time_12h`, the `strptime("%H:%M")` parse),
the distance-delta computation (`diff_km`), and the trip ledger backed by the
`trips` SQLite table (`add_trip`, `get_all_trips`, `delete_trip_by_id`, the
Streamlit view/delete handlers, and the per-driver Excel export).
-/

namespace TripForm

/-! ## Time normalizer -/

/-- Value of a decimal digit character, `none` on a non-digit.
Models the character classes consumed by `datetime.strptime`. -/
def digitVal (c : Char) : Option Nat :=
  if c.isDigit then some (c.toNat - 48) else none

/-- Read one or two leading decimal digits (greedy, as the `%H` / `%M`
directives of `strptime` do) and return the value with the rest of the
input. -/
def readNum2 : List Char → Option (Nat × List Char)
  | [] => none
  | [c1] => (digitVal c1).map (fun d => (d, []))
  | c1 :: c2 :: rest =>
    match digitVal c1 with
    | none => none
    | some d1 =>
      match digitVal c2 with
      | some d2 => some (10 * d1 + d2, rest)
      | none => some (d1, c2 :: rest)

/-- Model of `datetime.strptime` with format `%H:%M`, reduced to its
observable result: one or two digits of hour, a literal colon, one or two
digits of minute, end of input; hour at most 23 and minute at most 59,
otherwise a `ValueError` (modelled as `none`). -/
def parse_time_24h (s : String) : Option (Nat × Nat) :=
  match readNum2 s.toList with
  | some (h, ':' :: rest) =>
    match readNum2 rest with
    | some (m, []) => if h ≤ 23 ∧ m ≤ 59 then some (h, m) else none
    | _ => none
  | _ => none

/-- The Python 02d format of a natural number: zero-padded to width two. -/
def two_digit (n : Nat) : String :=
  (if n < 10 then "0" else "") ++ toString n

/-- The 24-hour text built at line 41 of the source: the zero-padded hour,
a colon, the zero-padded minute. -/
def format_time_24h (h m : Nat) : String :=
  two_digit h ++ ":" ++ two_digit m

/-- The hour field printed by `strftime("%I...")`: 12 for 0 and 12,
otherwise the hour modulo 12. -/
def hour12 (h : Nat) : Nat :=
  if h % 12 = 0 then 12 else h % 12

/-- The meridiem suffix printed by `strftime("...%p")`. -/
def meridiem (h : Nat) : String :=
  if h < 12 then "AM" else "PM"

/-- The rendering `strftime` gives for format `%I:%M %p` on a canonical
(hour, minute) pair. -/
def render_time_12h (h m : Nat) : String :=
  two_digit (hour12 h) ++ ":" ++ two_digit m ++ " " ++ meridiem h

/-- The function `format_time_12h` (source lines 49–51): parse a 24-hour
string with `strptime` and re-render it with `strftime` in 12-hour form; a
parse failure propagates (`ValueError`, modelled as `none`). -/
def format_time_12h (t24 : String) : Option String :=
  (parse_time_24h t24).map (fun p => render_time_12h p.1 p.2)

/-- The function `generate_time_options` (source lines 37–45): for every hour 0..23 and
minute in {0, 15, 30, 45}, the pair of the 24-hour text and its 12-hour
rendering. -/
def generate_time_options : List (String × String) :=
  (List.range 24).flatMap (fun hour =>
    ([0, 15, 30, 45] : List Nat).map (fun minute =>
      let t24 := format_time_24h hour minute
      (t24, (format_time_12h t24).getD "")))

/-- The module constant `time_options` (source line 47). -/
def time_options : List (String × String) := generate_time_options

/-! ## Distance delta -/

/-- The delta `diff_km = max(0, in_km - out_km)` (source line 100): Python
subtraction of the two non-negative widget values, clamped at zero. -/
def diff_km (out_km in_km : Nat) : Int :=
  max 0 ((in_km : Int) - (out_km : Int))

/-! ## Data model: the `trips` table -/

/-- The fixed driver list (source line 35). -/
def drivers : List String := ["Prem", "Ajith", "Wilson"]

/-- The values the trip form collects before submission (source lines
82–99): the driver, the date/text widgets, the two selected 24-hour time
strings and the two non-negative kilometre readings. -/
structure TripInput where
  driver : String
  disp_date : String
  invoice_no : String
  customer : String
  destination : String
  invoice_date : String
  vehicle : String
  out_time : String
  in_time : String
  out_km : Nat
  in_km : Nat
deriving DecidableEq

/-- One row of the `trips` table (source lines 15–31): the AUTOINCREMENT
surrogate `id` plus the twelve data columns. -/
structure TripRow where
  id : Nat
  driver : String
  disp_date : String
  invoice_no : String
  customer : String
  destination : String
  invoice_date : String
  vehicle : String
  out_time : String
  in_time : String
  out_km : Nat
  in_km : Nat
  diff_km : Int
deriving DecidableEq

/-- The twelve-value tuple passed to `add_trip`, placed in a fresh row. -/
def rowOf (id : Nat) (f : TripInput) (dkm : Int) : TripRow :=
  { id := id
    driver := f.driver
    disp_date := f.disp_date
    invoice_no := f.invoice_no
    customer := f.customer
    destination := f.destination
    invoice_date := f.invoice_date
    vehicle := f.vehicle
    out_time := f.out_time
    in_time := f.in_time
    out_km := f.out_km
    in_km := f.in_km
    diff_km := dkm }

/-- The SQLite database `data/trips.db`: the rows of the `trips` table in
rowid order, plus the next AUTOINCREMENT value. -/
structure TripsDB where
  nextId : Nat
  rows : List TripRow
deriving DecidableEq

/-- The freshly created store: empty table, AUTOINCREMENT starting at 1. -/
def initialDB : TripsDB := { nextId := 1, rows := [] }

/-- The function `add_trip` (source lines 55–60): INSERT the tuple; SQLite assigns the
next AUTOINCREMENT id and appends the row. -/
def add_trip (db : TripsDB) (f : TripInput) (dkm : Int) : TripsDB :=
  { nextId := db.nextId + 1, rows := db.rows ++ [rowOf db.nextId f dkm] }

/-- The function `get_all_trips` (source lines 62–67): `SELECT * FROM trips`, rows in
rowid (insertion) order. -/
def get_all_trips (db : TripsDB) : List TripRow :=
  db.rows

/-- The function `delete_trip_by_id` (source lines 69–71): DELETE FROM
trips the row with the given id. -/
def delete_trip_by_id (db : TripsDB) (trip_id : Nat) : TripsDB :=
  { db with rows := db.rows.filter (fun r => r.id ≠ trip_id) }

/-! ## The Streamlit handlers -/

/-- The Python string strip operation: remove leading and trailing
whitespace. -/
def pyStrip (s : String) : String :=
  ⟨((s.toList.dropWhile Char.isWhitespace).reverse.dropWhile
      Char.isWhitespace).reverse⟩

/-- The Python slice of the first `n` characters of a string. -/
def pyTake (s : String) (n : Nat) : String :=
  ⟨s.toList.take n⟩

/-- The strip calls applied to the free-text fields on submission
(source lines 111–115). -/
def stripForm (f : TripInput) : TripInput :=
  { f with
    invoice_no := pyStrip f.invoice_no
    customer := pyStrip f.customer
    destination := pyStrip f.destination
    vehicle := pyStrip f.vehicle }

/-- The submit handler (source lines 104–123): reject with an error when
`in_km < out_km`, otherwise insert the stripped fields together with the
computed `diff_km`. The first component is the error message shown, `none`
on success. -/
def submitHandler (db : TripsDB) (f : TripInput) : Option String × TripsDB :=
  if f.in_km < f.out_km then
    (some "In KM cannot be less than Out KM.", db)
  else
    (none, add_trip db (stripForm f) (diff_km f.out_km f.in_km))

/-- The driver filter of the view section (source lines 133–138): scope
"All" keeps every row, any other scope keeps the rows of that driver. -/
def scopeList (db : TripsDB) (scope : String) : List TripRow :=
  if scope = "All" then get_all_trips db
  else (get_all_trips db).filter (fun r => r.driver = scope)

/-- The `S.No.` column (source lines 143–144): `index + 1` down the
filtered frame. -/
def withSno (n : Nat) : List TripRow → List (Nat × TripRow)
  | [] => []
  | r :: rs => (n, r) :: withSno (n + 1) rs

/-- The displayed listing of a scope: the filtered rows numbered 1..N. -/
def listing (db : TripsDB) (scope : String) : List (Nat × TripRow) :=
  withSno 1 (scopeList db scope)

/-- The Delete Trip button handler (source lines 153–162): if the entered
serial number is among the displayed `S.No.` values, resolve it to the
underlying row `id` and delete that row; otherwise show the error and leave
the store untouched. The first component is the error message, `none` on
success. -/
def deleteHandler (db : TripsDB) (scope : String) (k : Nat) :
    Option String × TripsDB :=
  match (listing db scope).find? (fun p => p.1 = k) with
  | some p => (none, delete_trip_by_id db p.2.id)
  | none => (some "Invalid S.No. entered. Please enter a valid serial number.", db)

/-- A user action of the app: a form submission or a delete request. -/
inductive Op where
  | submit (f : TripInput)
  | delete (scope : String) (k : Nat)

/-- One user action applied to the store. -/
def step (db : TripsDB) : Op → TripsDB
  | .submit f => (submitHandler db f).2
  | .delete scope k => (deleteHandler db scope k).2

/-- The store after a sequence of user actions from the fresh database. -/
def run (ops : List Op) : TripsDB :=
  ops.foldl step initialDB

/-- A sequence of form submissions, each through the submit handler. -/
def submitAll (db : TripsDB) (fs : List TripInput) : TripsDB :=
  fs.foldl (fun d f => (submitHandler d f).2) db

/-- The rows that successful submissions create, starting from the given
AUTOINCREMENT value: each input stripped, with its computed delta and a
consecutive id. -/
def newRows (n : Nat) : List TripInput → List TripRow
  | [] => []
  | f :: fs =>
    rowOf n (stripForm f) (diff_km f.out_km f.in_km) :: newRows (n + 1) fs

/-! ## Excel export -/

/-- Model of `pandas.unique` on the Driver column: the distinct values in order of
first appearance. -/
def uniqueFirstAux (seen : List String) : List String → List String
  | [] => []
  | d :: ds =>
    if d ∈ seen then uniqueFirstAux seen ds
    else d :: uniqueFirstAux (d :: seen) ds

/-- The distinct drivers present in a row list, in first-appearance
order. -/
def uniqueDrivers (rows : List TripRow) : List String :=
  uniqueFirstAux [] (rows.map (fun r => r.driver))

/-- The function `convert_df_to_excel` (source lines 165–172): one sheet per distinct
driver of the exported frame, named by the driver (truncated to 31
characters), holding exactly the rows whose Driver equals that driver. -/
def convert_df_to_excel (rows : List TripRow) :
    List (String × List TripRow) :=
  (uniqueDrivers rows).map (fun d =>
    (pyTake d 31, rows.filter (fun r => r.driver = d)))

/-! ## Concrete sample data for witnesses -/

/-- A filled-in trip form with the given driver and kilometre readings. -/
def sampleInput (drv : String) (o i : Nat) : TripInput :=
  { driver := drv
    disp_date := "2025-01-01"
    invoice_no := "INV1"
    customer := "Acme"
    destination := "Chennai"
    invoice_date := "2025-01-01"
    vehicle := "TN01"
    out_time := "09:00"
    in_time := "17:30"
    out_km := o
    in_km := i }

/-- The submission of the end-to-end scenario: driver Ajith, out 120, in 95. -/
def ajithInput : TripInput := sampleInput "Ajith" 120 95

/-- A store with three rows (ids 1–3) for the delete-path witnesses. -/
def sampleDB : TripsDB :=
  { nextId := 4
    rows := [rowOf 1 (sampleInput "Prem" 0 10) 10,
             rowOf 2 (sampleInput "Ajith" 5 9) 4,
             rowOf 3 (sampleInput "Prem" 2 2) 0] }

/-! ## Ledger lemmas -/

lemma withSno_map_fst : ∀ (l : List TripRow) (n : Nat),
    (withSno n l).map Prod.fst = List.range' n l.length
  | [], _ => rfl
  | r :: rs, n => by
    simp [withSno, List.range'_succ, withSno_map_fst rs (n + 1)]

lemma find?_withSno : ∀ (l : List TripRow) (n k : Nat), n ≤ k →
    (withSno n l).find? (fun p => p.1 = k)
      = (l.get? (k - n)).map (fun r => (k, r))
  | [], n, k, _ => rfl
  | r :: rs, n, k, hnk => by
    by_cases hk : n = k
    · subst hk
      simp [withSno, List.find?]
    · have h1 : n + 1 ≤ k := by omega
      have h2 : k - n = (k - (n + 1)) + 1 := by omega
      simp only [withSno, List.find?, h2, List.get?_cons_succ,
        decide_eq_false hk]
      exact find?_withSno rs (n + 1) k h1

lemma find?_withSno_lt : ∀ (l : List TripRow) (n k : Nat), k < n →
    (withSno n l).find? (fun p => p.1 = k) = none
  | [], _, _, _ => rfl
  | r :: rs, n, k, hkn => by
    have hk : ¬ n = k := by omega
    simp only [withSno, List.find?, decide_eq_false hk]
    exact find?_withSno_lt rs (n + 1) k (by omega)

/-- With pairwise-distinct ids, deleting by the id of the element at index
`i` is exactly the removal of index `i`. -/
lemma filter_ne_of_nodup_ids : ∀ (l : List TripRow) (i : Nat) (a : TripRow),
    (l.map TripRow.id).Nodup → l.get? i = some a →
    l.filter (fun r => r.id ≠ a.id) = l.eraseIdx i
  | [], i, a, _, hget => by simp at hget
  | b :: t, 0, a, hnd, hget => by
    have hba : b = a := by simpa using hget
    subst hba
    rw [List.map_cons, List.nodup_cons] at hnd
    obtain ⟨hb, -⟩ := hnd
    have hfalse : ¬ b.id ≠ b.id := by simp
    simp only [List.eraseIdx, List.filter, decide_eq_false hfalse]
    exact List.filter_eq_self.mpr (fun r hr => by
      simp only [decide_eq_true_eq]
      exact fun he => hb (he ▸ List.mem_map_of_mem TripRow.id hr))
  | b :: t, i + 1, a, hnd, hget => by
    have hget' : t.get? i = some a := by simpa using hget
    have hmem : a ∈ t := List.get?_mem hget'
    rw [List.map_cons, List.nodup_cons] at hnd
    obtain ⟨hb, hnd'⟩ := hnd
    have hba : b.id ≠ a.id := fun he =>
      hb (he ▸ List.mem_map_of_mem TripRow.id hmem)
    simp only [List.eraseIdx, List.filter, decide_eq_true hba]
    rw [filter_ne_of_nodup_ids t i a hnd' hget']

/-- Deleting a present id shortens the table by exactly one row. -/
lemma filter_ne_length (l : List TripRow) (a : TripRow)
    (hnd : (l.map TripRow.id).Nodup) (ha : a ∈ l) :
    (l.filter (fun r => r.id ≠ a.id)).length + 1 = l.length := by
  obtain ⟨i, hi⟩ := List.mem_iff_get?.mp ha
  have hlt : i < l.length := by
    by_contra hge
    rw [List.get?_eq_none.mpr (by omega)] at hi
    exact absurd hi (by simp)
  rw [filter_ne_of_nodup_ids l i a hnd hi, List.length_eraseIdx, if_pos hlt]
  omega

lemma scopeList_subset {db : TripsDB} {s : String} {r : TripRow}
    (hr : r ∈ scopeList db s) : r ∈ db.rows := by
  unfold scopeList get_all_trips at hr
  by_cases hs : s = "All"
  · simpa [hs] using hr
  · rw [if_neg hs] at hr
    exact List.mem_of_mem_filter hr

lemma scopeList_ids_nodup {db : TripsDB} (s : String)
    (h : (db.rows.map TripRow.id).Nodup) :
    ((scopeList db s).map TripRow.id).Nodup := by
  unfold scopeList get_all_trips
  by_cases hs : s = "All"
  · simpa [hs] using h
  · rw [if_neg hs]
    exact h.sublist (List.Sublist.map TripRow.id (List.filter_sublist db.rows))

lemma scopeList_delete (db : TripsDB) (tid : Nat) (s : String) :
    scopeList (delete_trip_by_id db tid) s
      = (scopeList db s).filter (fun r => r.id ≠ tid) := by
  unfold scopeList delete_trip_by_id get_all_trips
  by_cases hs : s = "All"
  · simp [hs]
  · simp only [if_neg hs, List.filter_filter]
    congr 1
    funext r
    exact Bool.and_comm _ _

lemma scopeList_add (db : TripsDB) (f : TripInput) (dkm : Int) (s : String)
    (h : s = "All" ∨ f.driver = s) :
    scopeList (add_trip db f dkm) s
      = scopeList db s ++ [rowOf db.nextId f dkm] := by
  unfold scopeList add_trip get_all_trips
  by_cases hs : s = "All"
  · simp [hs]
  · have hd : f.driver = s := h.resolve_left hs
    simp [if_neg hs, List.filter_append, rowOf, hd]

/-! ## Time normalizer lemmas -/

/-- Formatting a canonical pair and re-parsing it recovers the pair. -/
lemma parse_format_roundtrip : ∀ h < 24, ∀ m < 60,
    parse_time_24h (format_time_24h h m) = some (h, m) := by decide

/-- The parser only ever returns values inside the canonical domain. -/
lemma parse_time_24h_bounds {s : String} {h m : Nat}
    (hp : parse_time_24h s = some (h, m)) : h < 24 ∧ m < 60 := by
  unfold parse_time_24h at hp
  split at hp
  · split at hp
    · split at hp
      · rename_i hcond
        injection hp with hpe
        cases hpe
        omega
      · exact absurd hp (by simp)
    · exact absurd hp (by simp)
  · exact absurd hp (by simp)

/-! ## Claim theorems: time normalizer and distance delta -/

/-- C2. For every pair of non-negative integers `out` and `in`, the
distance delta of a submission equals `max(0, in - out)` and is never
negative — the row an accepted submission appends carries exactly this
value; in particular `diff_km 100 80 = 0` and `diff_km 100 150 = 50`. -/
theorem diff_km_matches_spec :
    (∀ o i : Nat, diff_km o i = max 0 ((i : Int) - (o : Int)) ∧ 0 ≤ diff_km o i)
    ∧ (∀ (db : TripsDB) (f : TripInput), f.out_km ≤ f.in_km →
        (submitHandler db f).2.rows
          = db.rows ++ [rowOf db.nextId (stripForm f) (diff_km f.out_km f.in_km)])
    ∧ diff_km 100 80 = 0 ∧ diff_km 100 150 = 50 := by
  refine ⟨fun o i => ⟨rfl, le_max_left 0 _⟩, fun db f hf => ?_, by decide, by decide⟩
  unfold submitHandler
  rw [if_neg (by omega)]
  rfl

/-- C2 witness: an accepted submission (out 100, in 150) appends one row
holding delta 50. -/
theorem diff_km_matches_spec_witness :
    (sampleInput "Prem" 100 150).out_km ≤ (sampleInput "Prem" 100 150).in_km
    ∧ (submitHandler initialDB (sampleInput "Prem" 100 150)).2.rows
        = initialDB.rows
          ++ [rowOf initialDB.nextId (stripForm (sampleInput "Prem" 100 150))
                (diff_km (sampleInput "Prem" 100 150).out_km
                  (sampleInput "Prem" 100 150).in_km)] :=
  ⟨by decide,
   diff_km_matches_spec.2.1 initialDB (sampleInput "Prem" 100 150) (by decide)⟩

/-- C6. Formatting and parsing of 24-hour times are mutual inverses over the
canonical domain: formatting any (hour, minute) with hour < 24 and
minute < 60 and parsing the result yields the identical pair, and any string
the parser accepts satisfies the parse→format→parse round-trip (the parsed
pair lies in the canonical domain and re-formats to a string that parses to
the same pair). -/
theorem time_roundtrip :
    (∀ h < 24, ∀ m < 60, parse_time_24h (format_time_24h h m) = some (h, m))
    ∧ ∀ s h m, parse_time_24h s = some (h, m) →
        h < 24 ∧ m < 60 ∧ parse_time_24h (format_time_24h h m) = some (h, m) := by
  refine ⟨parse_format_roundtrip, fun s h m hp => ?_⟩
  obtain ⟨hh, hm⟩ := parse_time_24h_bounds hp
  exact ⟨hh, hm, parse_format_roundtrip h hh m hm⟩

/-- C6 witness: the round trip at (7, 45) and on the accepted string
"23:59". -/
theorem time_roundtrip_witness :
    (7 < 24 ∧ 45 < 60 ∧ parse_time_24h (format_time_24h 7 45) = some (7, 45))
    ∧ (parse_time_24h "23:59" = some (23, 59)
       ∧ 23 < 24 ∧ 59 < 60 ∧ parse_time_24h (format_time_24h 23 59) = some (23, 59)) :=
  ⟨⟨by decide, by decide, time_roundtrip.1 7 (by decide) 45 (by decide)⟩,
   ⟨by decide, time_roundtrip.2 "23:59" 23 59 (by decide)⟩⟩

/-- C7. Midnight/noon conventions of the 12-hour rendering: canonical hour 0
renders with prefix-hour 12 and suffix AM, canonical hour 12 with
prefix-hour 12 and suffix PM; conversely, within the canonical domain,
prefix-hour 12 with PM only arises from canonical hour 12 and prefix-hour 12
with AM only from canonical hour 0; and no parsed minute ever reaches 60. -/
theorem midnight_noon_conventions :
    (hour12 0 = 12 ∧ meridiem 0 = "AM" ∧ format_time_12h "00:30" = some "12:30 AM")
    ∧ (hour12 12 = 12 ∧ meridiem 12 = "PM" ∧ format_time_12h "12:30" = some "12:30 PM")
    ∧ (∀ h < 24, hour12 h = 12 → meridiem h = "PM" → h = 12)
    ∧ (∀ h < 24, hour12 h = 12 → meridiem h = "AM" → h = 0)
    ∧ ∀ s h m, parse_time_24h s = some (h, m) → m < 60 := by
  refine ⟨by decide, by decide, by decide, by decide, fun s h m hp => ?_⟩
  exact (parse_time_24h_bounds hp).2

/-- C7 witness: the converse directions at hours 12 and 0, and the minute
bound on the accepted string "18:05". -/
theorem midnight_noon_conventions_witness :
    (12 < 24 ∧ hour12 12 = 12 ∧ meridiem 12 = "PM" ∧ 12 = 12)
    ∧ (0 < 24 ∧ hour12 0 = 12 ∧ meridiem 0 = "AM" ∧ 0 = 0)
    ∧ (parse_time_24h "18:05" = some (18, 5) ∧ 5 < 60) :=
  ⟨⟨by decide, by decide, by decide,
    midnight_noon_conventions.2.2.1 12 (by decide) (by decide) (by decide)⟩,
   ⟨by decide, by decide, by decide,
    midnight_noon_conventions.2.2.2.1 0 (by decide) (by decide) (by decide)⟩,
   ⟨by decide, midnight_noon_conventions.2.2.2.2 "18:05" 18 5 (by decide)⟩⟩

/-- C8. The precomputed option list holds exactly 96 pairwise-distinct
24-hour values — one per 15-minute step of the day — and every one of them
parses successfully to a canonical time, so a selection from this closed
list can never fail to parse. -/
theorem time_options_lattice :
    time_options.length = 96
    ∧ (time_options.map Prod.fst).Nodup
    ∧ ∀ p ∈ time_options,
        ∃ h m, h < 24 ∧ m < 60 ∧ m % 15 = 0 ∧ parse_time_24h p.1 = some (h, m) := by
  refine ⟨by decide, by decide, fun p hp => ?_⟩
  simp only [time_options, generate_time_options, List.mem_flatMap, List.mem_map,
    List.mem_range] at hp
  obtain ⟨hour, hhour, minute, hminute, rfl⟩ := hp
  have hm : minute = 0 ∨ minute = 15 ∨ minute = 30 ∨ minute = 45 := by
    simpa using hminute
  have hm60 : minute < 60 := by omega
  have hm15 : minute % 15 = 0 := by
    rcases hm with rfl | rfl | rfl | rfl <;> decide
  exact ⟨hour, minute, hhour, hm60, hm15, parse_format_roundtrip hour hhour minute hm60⟩

/-- C8 witness: the pair at 00:00 is among the 96 options and parses to
midnight. -/
theorem time_options_lattice_witness :
    ("00:00", "12:00 AM") ∈ time_options
    ∧ ∃ h m, h < 24 ∧ m < 60 ∧ m % 15 = 0
        ∧ parse_time_24h ("00:00", "12:00 AM").1 = some (h, m) :=
  ⟨by decide, time_options_lattice.2.2 ("00:00", "12:00 AM") (by decide)⟩

/-! ## Claim theorems: submission path -/

/-- C1 counterexample: the end-to-end scenario (driver Ajith, out 120,
in 95) does not succeed on the code: the submit handler rejects it with an
error message, the store is left untouched, and the subsequent listing of
scope Ajith is empty — the record does not appear as sequence 1. -/
theorem submit_ajith_120_95_rejected_cx :
    (submitHandler initialDB ajithInput).1 = some "In KM cannot be less than Out KM."
    ∧ (submitHandler initialDB ajithInput).2 = initialDB
    ∧ listing (submitHandler initialDB ajithInput).2 "Ajith" = []
    ∧ ¬ ∃ p ∈ listing (submitHandler initialDB ajithInput).2 "Ajith", p.1 = 1 := by
  refine ⟨rfl, rfl, rfl, ?_⟩
  rintro ⟨p, hp, -⟩
  simp [submitHandler, ajithInput, sampleInput, listing, scopeList, initialDB,
    get_all_trips, withSno] at hp

/-- C1 amended: a submission whose in-distance is less than its out-distance
(such as driver Ajith, out 120, in 95) computes a distance delta of 0 (not
negative) but is rejected: the handler reports "In KM cannot be less than
Out KM.", no record is persisted, and the listing of scope "Ajith" is
unchanged. -/
theorem submit_lesser_in_km_rejected (db : TripsDB) (f : TripInput)
    (h : f.in_km < f.out_km) :
    diff_km f.out_km f.in_km = 0
    ∧ submitHandler db f = (some "In KM cannot be less than Out KM.", db)
    ∧ listing (submitHandler db f).2 "Ajith" = listing db "Ajith" := by
  have hd : diff_km f.out_km f.in_km = 0 := by
    unfold diff_km
    omega
  have hs : submitHandler db f = (some "In KM cannot be less than Out KM.", db) := by
    unfold submitHandler
    simp [h]
  exact ⟨hd, hs, by rw [hs]⟩

/-- C1 amended witness: the Ajith 120/95 submission against the fresh
store. -/
theorem submit_lesser_in_km_rejected_witness :
    ajithInput.in_km < ajithInput.out_km
    ∧ diff_km ajithInput.out_km ajithInput.in_km = 0
    ∧ submitHandler initialDB ajithInput
        = (some "In KM cannot be less than Out KM.", initialDB)
    ∧ listing (submitHandler initialDB ajithInput).2 "Ajith"
        = listing initialDB "Ajith" :=
  ⟨by decide, submit_lesser_in_km_rejected initialDB ajithInput (by decide)⟩

/-! ## Claim theorems: listing and deletion -/

/-- C4. Deleting an in-range sequence number `k` from a scope of `N`
records (over a table with pairwise-distinct ids): no error is reported,
exactly one row leaves the table, re-listing the scope yields precisely the
old listing with position `k` removed, the recomputed sequence numbers are
the contiguous run 1..N-1, and the deleted record is absent from the
re-listed scope. -/
theorem delete_in_range (db : TripsDB) (scope : String) (k : Nat)
    (hnd : (db.rows.map TripRow.id).Nodup)
    (hk1 : 1 ≤ k) (hk2 : k ≤ (scopeList db scope).length) :
    (deleteHandler db scope k).1 = none
    ∧ (deleteHandler db scope k).2.rows.length + 1 = db.rows.length
    ∧ scopeList (deleteHandler db scope k).2 scope
        = (scopeList db scope).eraseIdx (k - 1)
    ∧ (listing (deleteHandler db scope k).2 scope).map Prod.fst
        = List.range' 1 ((scopeList db scope).length - 1)
    ∧ ∀ r, (scopeList db scope).get? (k - 1) = some r →
        r ∉ scopeList (deleteHandler db scope k).2 scope := by
  have hlt : k - 1 < (scopeList db scope).length := by omega
  obtain ⟨r, hr⟩ : ∃ r, (scopeList db scope).get? (k - 1) = some r :=
    ⟨(scopeList db scope).get ⟨k - 1, hlt⟩, List.get?_eq_get hlt⟩
  have hdel : deleteHandler db scope k = (none, delete_trip_by_id db r.id) := by
    unfold deleteHandler listing
    rw [find?_withSno _ 1 k hk1, hr]
    rfl
  have hmem : r ∈ db.rows := scopeList_subset (List.get?_mem hr)
  have hndl : ((scopeList db scope).map TripRow.id).Nodup :=
    scopeList_ids_nodup scope hnd
  have hscope : scopeList (delete_trip_by_id db r.id) scope
      = (scopeList db scope).eraseIdx (k - 1) := by
    rw [scopeList_delete, filter_ne_of_nodup_ids _ (k - 1) r hndl hr]
  refine ⟨by rw [hdel], ?_, ?_, ?_, ?_⟩
  · rw [hdel]
    exact filter_ne_length db.rows r hnd hmem
  · rw [hdel]
    exact hscope
  · rw [hdel]
    unfold listing
    rw [hscope, withSno_map_fst, List.length_eraseIdx, if_pos hlt]
  · intro r' hg
    have hrr : r' = r := by
      rw [hr] at hg
      exact (Option.some.inj hg).symm
    subst hrr
    rw [hdel, scopeList_delete]
    intro hin
    obtain ⟨-, hpred⟩ := List.mem_filter.mp hin
    simp at hpred

/-- C4 witness: deleting sequence number 2 from the two Prem rows of the
three-row sample store reports no error and removes exactly one row. -/
theorem delete_in_range_witness :
    ((sampleDB.rows.map TripRow.id).Nodup
      ∧ 1 ≤ 2 ∧ 2 ≤ (scopeList sampleDB "Prem").length)
    ∧ (deleteHandler sampleDB "Prem" 2).1 = none
    ∧ (deleteHandler sampleDB "Prem" 2).2.rows.length + 1
        = sampleDB.rows.length :=
  ⟨⟨by decide, by decide, by decide⟩,
   (delete_in_range sampleDB "Prem" 2 (by decide) (by decide) (by decide)).1,
   (delete_in_range sampleDB "Prem" 2 (by decide) (by decide) (by decide)).2.1⟩

/-- C5. A delete request whose sequence number lies outside `[1, N]` for
the scope fails with the invalid-serial-number message and leaves the store
untouched, so re-listing the scope gives the very same listing. -/
theorem delete_out_of_range (db : TripsDB) (scope : String) (k : Nat)
    (hk : k < 1 ∨ (scopeList db scope).length < k) :
    deleteHandler db scope k
      = (some "Invalid S.No. entered. Please enter a valid serial number.", db)
    ∧ listing (deleteHandler db scope k).2 scope = listing db scope := by
  have hfind : (withSno 1 (scopeList db scope)).find? (fun p => p.1 = k)
      = none := by
    rcases hk with hk | hk
    · exact find?_withSno_lt _ 1 k hk
    · rw [find?_withSno _ 1 k (by omega), List.get?_eq_none.mpr (by omega)]
      rfl
  have h1 : deleteHandler db scope k
      = (some "Invalid S.No. entered. Please enter a valid serial number.", db) := by
    unfold deleteHandler listing
    rw [hfind]
  exact ⟨h1, by rw [h1]⟩

/-- C5 witness: requesting deletion of sequence number 5 from the two-row
Prem scope of the sample store fails and changes nothing. -/
theorem delete_out_of_range_witness :
    ((scopeList sampleDB "Prem").length < 5)
    ∧ deleteHandler sampleDB "Prem" 5
        = (some "Invalid S.No. entered. Please enter a valid serial number.",
           sampleDB)
    ∧ listing (deleteHandler sampleDB "Prem" 5).2 "Prem"
        = listing sampleDB "Prem" :=
  ⟨by decide,
   delete_out_of_range sampleDB "Prem" 5 (Or.inr (by decide))⟩

/-! ## Claim theorems: adding then listing -/

lemma newRows_length : ∀ (n : Nat) (fs : List TripInput),
    (newRows n fs).length = fs.length
  | _, [] => rfl
  | n, _ :: fs => by simp [newRows, newRows_length (n + 1) fs]

lemma stripForm_driver (f : TripInput) : (stripForm f).driver = f.driver := rfl

lemma submitAll_spec : ∀ (fs : List TripInput) (db : TripsDB) (s : String),
    (∀ f ∈ fs, f.driver = s ∧ f.out_km ≤ f.in_km) →
    (submitAll db fs).nextId = db.nextId + fs.length
    ∧ scopeList (submitAll db fs) s = scopeList db s ++ newRows db.nextId fs
  | [], db, s, _ => by simp [submitAll, newRows]
  | f :: fs, db, s, hf => by
    obtain ⟨hd, hkm⟩ := hf f (List.mem_cons_self f fs)
    have hstep : submitHandler db f
        = (none, add_trip db (stripForm f) (diff_km f.out_km f.in_km)) := by
      unfold submitHandler
      rw [if_neg (by omega)]
    have hfold : submitAll db (f :: fs)
        = submitAll (add_trip db (stripForm f) (diff_km f.out_km f.in_km)) fs := by
      simp [submitAll, hstep]
    obtain ⟨ih1, ih2⟩ :=
      submitAll_spec fs (add_trip db (stripForm f) (diff_km f.out_km f.in_km)) s
        (fun g hg => hf g (List.mem_cons_of_mem f hg))
    constructor
    · rw [hfold, ih1]
      simp [add_trip]
      omega
    · rw [hfold, ih2,
        scopeList_add db (stripForm f) (diff_km f.out_km f.in_km) s
          (Or.inr (by rw [stripForm_driver, hd]))]
      simp [add_trip, newRows]

/-- C3. Submitting N trips for one driver into a store whose scope for that
driver is empty, then listing that scope, yields exactly the N created
records — each input stripped, carrying its computed delta and consecutive
ids — in insertion order, with sequence numbers exactly 1..N. -/
theorem add_N_then_list (db : TripsDB) (s : String) (fs : List TripInput)
    (h0 : scopeList db s = [])
    (hf : ∀ f ∈ fs, f.driver = s ∧ f.out_km ≤ f.in_km) :
    scopeList (submitAll db fs) s = newRows db.nextId fs
    ∧ (listing (submitAll db fs) s).map Prod.fst = List.range' 1 fs.length := by
  obtain ⟨-, h2⟩ := submitAll_spec fs db s hf
  rw [h0, List.nil_append] at h2
  refine ⟨h2, ?_⟩
  unfold listing
  rw [h2, withSno_map_fst, newRows_length]

/-- C3 witness: two Prem submissions into the fresh store list as exactly
those two records with sequence numbers 1 and 2. -/
theorem add_N_then_list_witness :
    (scopeList initialDB "Prem" = []
      ∧ ∀ f ∈ [sampleInput "Prem" 0 5, sampleInput "Prem" 3 10],
          f.driver = "Prem" ∧ f.out_km ≤ f.in_km)
    ∧ scopeList (submitAll initialDB [sampleInput "Prem" 0 5, sampleInput "Prem" 3 10]) "Prem"
        = newRows 1 [sampleInput "Prem" 0 5, sampleInput "Prem" 3 10]
    ∧ (listing (submitAll initialDB [sampleInput "Prem" 0 5, sampleInput "Prem" 3 10]) "Prem").map Prod.fst
        = List.range' 1 2 :=
  ⟨⟨by decide, by decide⟩,
   add_N_then_list initialDB "Prem" [sampleInput "Prem" 0 5, sampleInput "Prem" 3 10]
     (by decide) (by decide)⟩

/-! ## Claim theorems: export -/

lemma mem_uniqueFirstAux : ∀ (l seen : List String) (d : String),
    d ∈ uniqueFirstAux seen l ↔ d ∈ l ∧ d ∉ seen
  | [], seen, d => by simp [uniqueFirstAux]
  | x :: xs, seen, d => by
    by_cases hx : x ∈ seen
    · rw [uniqueFirstAux, if_pos hx, mem_uniqueFirstAux xs seen d]
      constructor
      · rintro ⟨h1, h2⟩
        exact ⟨List.mem_cons_of_mem x h1, h2⟩
      · rintro ⟨h1, h2⟩
        rcases List.mem_cons.mp h1 with rfl | h1
        · exact absurd hx h2
        · exact ⟨h1, h2⟩
    · rw [uniqueFirstAux, if_neg hx]
      constructor
      · intro h
        rcases List.mem_cons.mp h with rfl | h
        · exact ⟨List.mem_cons_self d xs, hx⟩
        · obtain ⟨h1, h2⟩ := (mem_uniqueFirstAux xs (x :: seen) d).mp h
          exact ⟨List.mem_cons_of_mem x h1,
            fun hs => h2 (List.mem_cons_of_mem x hs)⟩
      · rintro ⟨h1, h2⟩
        rcases List.mem_cons.mp h1 with rfl | h1
        · exact List.mem_cons_self d _
        · by_cases hdx : d = x
          · subst hdx
            exact List.mem_cons_self d _
          · exact List.mem_cons_of_mem x
              ((mem_uniqueFirstAux xs (x :: seen) d).mpr
                ⟨h1, fun hs => by
                  rcases List.mem_cons.mp hs with h | h
                  · exact hdx h
                  · exact h2 h⟩)

lemma nodup_uniqueFirstAux : ∀ (l seen : List String),
    (uniqueFirstAux seen l).Nodup
  | [], _ => List.nodup_nil
  | x :: xs, seen => by
    by_cases hx : x ∈ seen
    · rw [uniqueFirstAux, if_pos hx]
      exact nodup_uniqueFirstAux xs seen
    · rw [uniqueFirstAux, if_neg hx]
      refine List.nodup_cons.mpr ⟨?_, nodup_uniqueFirstAux xs (x :: seen)⟩
      intro hmem
      exact ((mem_uniqueFirstAux xs (x :: seen) x).mp hmem).2
        (List.mem_cons_self x seen)

lemma pyTake_31_drivers : ∀ d ∈ drivers, pyTake d 31 = d := by decide

lemma mem_uniqueDrivers {rows : List TripRow} {d : String} :
    d ∈ uniqueDrivers rows ↔ ∃ r ∈ rows, r.driver = d := by
  unfold uniqueDrivers
  rw [mem_uniqueFirstAux]
  simp [List.mem_map, eq_comm]

/-- C9. For a ledger whose rows all use the fixed driver set, the export
has pairwise-distinct sheet names, a sheet appears for a name exactly when
some row of that driver is present, and each sheet holds exactly the rows
of its driver — every row in a sheet has that driver, and every row of that
driver is in the sheet. -/
theorem export_per_driver (rows : List TripRow)
    (hdr : ∀ r ∈ rows, r.driver ∈ drivers) :
    ((convert_df_to_excel rows).map Prod.fst).Nodup
    ∧ (∀ d, d ∈ (convert_df_to_excel rows).map Prod.fst
        ↔ ∃ r ∈ rows, r.driver = d)
    ∧ ∀ sh ∈ convert_df_to_excel rows,
        (∀ r ∈ sh.2, r.driver = sh.1)
        ∧ ∀ r ∈ rows, r.driver = sh.1 → r ∈ sh.2 := by
  have htake : ∀ d ∈ uniqueDrivers rows, pyTake d 31 = d := by
    intro d hd
    obtain ⟨r, hr, hrd⟩ := mem_uniqueDrivers.mp hd
    exact pyTake_31_drivers d (hrd ▸ hdr r hr)
  have hnames : (convert_df_to_excel rows).map Prod.fst = uniqueDrivers rows := by
    unfold convert_df_to_excel
    rw [List.map_map]
    calc (uniqueDrivers rows).map (Prod.fst ∘ fun d => (pyTake d 31, rows.filter (fun r => r.driver = d)))
        = (uniqueDrivers rows).map (fun d => pyTake d 31) := rfl
      _ = (uniqueDrivers rows).map (fun d => d) := List.map_congr_left htake
      _ = uniqueDrivers rows := List.map_id' _
  refine ⟨?_, ?_, ?_⟩
  · rw [hnames]
    exact nodup_uniqueFirstAux _ _
  · intro d
    rw [hnames]
    exact mem_uniqueDrivers
  · intro sh hsh
    unfold convert_df_to_excel at hsh
    obtain ⟨d, hd, rfl⟩ := List.mem_map.mp hsh
    rw [htake d hd]
    constructor
    · intro r hrf
      have := List.mem_filter.mp hrf
      simpa using this.2
    · intro r hr hrd
      exact List.mem_filter.mpr ⟨hr, by simpa using hrd⟩

/-- C9 witness: a three-row ledger over two drivers exports with distinct
sheet names, one per driver present. -/
theorem export_per_driver_witness :
    (∀ r ∈ sampleDB.rows, r.driver ∈ drivers)
    ∧ ((convert_df_to_excel sampleDB.rows).map Prod.fst).Nodup
    ∧ ("Ajith" ∈ (convert_df_to_excel sampleDB.rows).map Prod.fst
        ↔ ∃ r ∈ sampleDB.rows, r.driver = "Ajith") :=
  ⟨by decide,
   (export_per_driver sampleDB.rows (by decide)).1,
   (export_per_driver sampleDB.rows (by decide)).2.1 "Ajith"⟩

/-! ## Claim theorems: the persisted-rows invariant -/

lemma step_preserves_invariant (db : TripsDB) (op : Op)
    (h : ∀ r ∈ db.rows,
      r.out_km ≤ r.in_km ∧ r.diff_km = (r.in_km : Int) - (r.out_km : Int)) :
    ∀ r ∈ (step db op).rows,
      r.out_km ≤ r.in_km ∧ r.diff_km = (r.in_km : Int) - (r.out_km : Int) := by
  cases op with
  | submit f =>
    by_cases hf : f.in_km < f.out_km
    · intro r hr
      exact h r (by simpa [step, submitHandler, hf] using hr)
    · intro r hr
      rw [show step db (Op.submit f)
          = add_trip db (stripForm f) (diff_km f.out_km f.in_km) by
        simp [step, submitHandler, hf]] at hr
      rcases List.mem_append.mp hr with hold | hnew
      · exact h r hold
      · have hr' : r = rowOf db.nextId (stripForm f) (diff_km f.out_km f.in_km) := by
          simpa using hnew
        subst hr'
        refine ⟨by simpa [rowOf, stripForm] using Nat.le_of_not_lt hf, ?_⟩
        show diff_km f.out_km f.in_km = ((f.in_km : Int) - (f.out_km : Int))
        unfold diff_km
        exact max_eq_right (by omega)
  | delete s k =>
    intro r hr
    apply h r
    simp only [step] at hr
    unfold deleteHandler at hr
    rcases hfind : (listing db s).find? (fun p => p.1 = k) with _ | p
    · rw [hfind] at hr
      exact hr
    · rw [hfind] at hr
      exact List.mem_of_mem_filter hr

lemma foldl_step_invariant : ∀ (ops : List Op) (db : TripsDB),
    (∀ r ∈ db.rows,
      r.out_km ≤ r.in_km ∧ r.diff_km = (r.in_km : Int) - (r.out_km : Int)) →
    ∀ r ∈ (ops.foldl step db).rows,
      r.out_km ≤ r.in_km ∧ r.diff_km = (r.in_km : Int) - (r.out_km : Int)
  | [], _, h => h
  | op :: ops, db, h =>
    foldl_step_invariant ops (step db op) (step_preserves_invariant db op h)

lemma step_preserves_ids (db : TripsDB) (op : Op)
    (h1 : (db.rows.map TripRow.id).Nodup)
    (h2 : ∀ r ∈ db.rows, r.id < db.nextId) :
    ((step db op).rows.map TripRow.id).Nodup
    ∧ ∀ r ∈ (step db op).rows, r.id < (step db op).nextId := by
  cases op with
  | submit f =>
    by_cases hf : f.in_km < f.out_km
    · have hstep : step db (Op.submit f) = db := by
        simp [step, submitHandler, hf]
      rw [hstep]
      exact ⟨h1, h2⟩
    · have hstep : step db (Op.submit f)
          = add_trip db (stripForm f) (diff_km f.out_km f.in_km) := by
        simp [step, submitHandler, hf]
      rw [hstep]
      constructor
      · show ((db.rows
            ++ [rowOf db.nextId (stripForm f) (diff_km f.out_km f.in_km)]).map
              TripRow.id).Nodup
        rw [List.map_append]
        refine List.Nodup.append h1 (by simp) ?_
        intro a ha hb
        simp only [List.map_cons, List.map_nil, List.mem_singleton] at hb
        obtain ⟨r, hr, hrid⟩ := List.mem_map.mp ha
        have hlt := h2 r hr
        have hbid : a = db.nextId := hb
        omega
      · intro r hr
        show r.id < db.nextId + 1
        rcases List.mem_append.mp hr with hold | hnew
        · have := h2 r hold
          omega
        · have hrr : r = rowOf db.nextId (stripForm f) (diff_km f.out_km f.in_km) := by
            simpa using hnew
          subst hrr
          exact Nat.lt_succ_self db.nextId
  | delete s k =>
    have hstep : step db (Op.delete s k) = (deleteHandler db s k).2 := rfl
    rcases hfind : (listing db s).find? (fun p => p.1 = k) with _ | p
    · have hd : deleteHandler db s k
          = (some "Invalid S.No. entered. Please enter a valid serial number.", db) := by
        unfold deleteHandler
        rw [hfind]
      rw [hstep, hd]
      exact ⟨h1, h2⟩
    · have hd : deleteHandler db s k = (none, delete_trip_by_id db p.2.id) := by
        unfold deleteHandler
        rw [hfind]
      rw [hstep, hd]
      refine ⟨h1.sublist (List.Sublist.map TripRow.id (List.filter_sublist db.rows)), ?_⟩
      intro r hr
      exact h2 r (List.mem_of_mem_filter hr)

/-- Every reachable store has pairwise-distinct row ids, all below the next
AUTOINCREMENT value: the distinct-ids hypothesis of the in-range delete
theorem holds along every run of the app. -/
lemma run_ids_nodup : ∀ ops : List Op,
    ((run ops).rows.map TripRow.id).Nodup
    ∧ ∀ r ∈ (run ops).rows, r.id < (run ops).nextId := by
  have main : ∀ (ops : List Op) (db : TripsDB),
      (db.rows.map TripRow.id).Nodup → (∀ r ∈ db.rows, r.id < db.nextId) →
      ((ops.foldl step db).rows.map TripRow.id).Nodup
      ∧ ∀ r ∈ (ops.foldl step db).rows, r.id < (ops.foldl step db).nextId := by
    intro ops
    induction ops with
    | nil => exact fun db h1 h2 => ⟨h1, h2⟩
    | cons op ops ih =>
      intro db h1 h2
      obtain ⟨g1, g2⟩ := step_preserves_ids db op h1 h2
      exact ih (step db op) g1 g2
  intro ops
  exact main ops initialDB (by simp [initialDB]) (by simp [initialDB])

/-- C10. Every row ever persisted through the application handlers satisfies
`in_km ≥ out_km` and stores `diff_km` as the exact difference — the
`max(0, ...)` clamp is never exercised on persisted data — because a
submission with `in_km < out_km` is rejected with an error message and
leaves the store unchanged. -/
theorem persisted_rows_invariant :
    (∀ ops : List Op, ∀ r ∈ (run ops).rows,
        r.out_km ≤ r.in_km ∧ r.diff_km = (r.in_km : Int) - (r.out_km : Int))
    ∧ ∀ (db : TripsDB) (f : TripInput), f.in_km < f.out_km →
        submitHandler db f = (some "In KM cannot be less than Out KM.", db) := by
  constructor
  · intro ops
    exact foldl_step_invariant ops initialDB (by simp [initialDB])
  · intro db f hf
    unfold submitHandler
    rw [if_pos hf]

/-- C10 witness: the row created by one accepted submission satisfies the
invariant, and the Ajith 120/95 submission is rejected unchanged. -/
theorem persisted_rows_invariant_witness :
    (rowOf 1 (stripForm (sampleInput "Prem" 3 10)) (diff_km 3 10)
        ∈ (run [Op.submit (sampleInput "Prem" 3 10)]).rows
      ∧ (rowOf 1 (stripForm (sampleInput "Prem" 3 10)) (diff_km 3 10)).out_km
          ≤ (rowOf 1 (stripForm (sampleInput "Prem" 3 10)) (diff_km 3 10)).in_km)
    ∧ (ajithInput.in_km < ajithInput.out_km
      ∧ submitHandler initialDB ajithInput
          = (some "In KM cannot be less than Out KM.", initialDB)) :=
  ⟨⟨by decide,
    (persisted_rows_invariant.1 [Op.submit (sampleInput "Prem" 3 10)]
      (rowOf 1 (stripForm (sampleInput "Prem" 3 10)) (diff_km 3 10))
      (by decide)).1⟩,
   ⟨by decide, persisted_rows_invariant.2 initialDB ajithInput (by decide)⟩⟩

end TripForm
